import Mathlib

/-!
Shallow embedding of `src/pennylane/_qubit_device.py` (class `QubitDevice`),
the measurement-and-statistics engine of the PennyLane qubit device, together
with theorems settling the frozen claims about it.

Modelling conventions:
* Real-valued numpy data is modelled with `ℚ` (exact arithmetic; no floating
  point enters any claim considered here).
* numpy arrays are `List`s; a 2-d array is a `List (List _)`.
* Python `None`-able values are `Option`s.
* Operations and failure: numpy calls that raise (`reshape` with a size
  mismatch, `np.random.choice` with an invalid probability argument) are
  modelled by `Option`/`Except` results.
* The state-evolution backend is abstract in the source (`apply`,
  `probability` are abstract methods of `QubitDevice`); they are passed as
  explicit parameters (`probFn`).  Randomness in `np.random.choice` is
  modelled by an injected stream `rng : Nat → ℚ` of uniform draws consumed
  through inverse-CDF sampling, which is how `np.random.choice` realises
  categorical sampling (cumulative sums + searchsorted, clipped to a valid
  index).
-/

namespace PennyLane

/-- Return types of an observable.  The source compares `obs.return_type`
against the sentinels `Expectation`, `Variance`, `Sample`, `Probability`
imported from `pennylane.operation`; any other non-`None` value is
unsupported and is modelled by `Other`. -/
inductive ReturnType where
  | Expectation
  | Variance
  | Sample
  | Probability
  | Other (desc : String)
deriving DecidableEq, Repr

/-- A quantum operation (gate).  Its semantics live in the abstract backend
`apply`; only its identity matters to this layer. -/
structure Operation where
  opName : String
deriving DecidableEq, Repr

/-- An entry of `observable.wires`: the source iterates the wires of an
observable and treats each entry as either a plain `int` or a nested
iterable of ints (`rotate_basis`, lines 170-174). -/
inductive WireSpec where
  | single (w : Nat)
  | group (ws : List Nat)
deriving DecidableEq, Repr

/-- An observable, as consumed by `QubitDevice`: a name, the wires it acts
on, its requested `return_type` (`none` = no measurement requested), its
eigenvalues (`obs.eigvals`, ordered by the binary encoding of the local
basis states), and its diagonalizing gates. -/
structure Observable where
  name : String
  wires : List WireSpec
  return_type : Option ReturnType
  eigvals : List ℚ
  diagonalizing_gates : List Operation
deriving DecidableEq, Repr

/-- The device measurement state owned by a `QubitDevice` instance:
`num_wires` and `shots` come from `Device.__init__`; `analytic`,
`_wires_used`, `_memory` and `_samples` are set in `QubitDevice.__init__`
(lines 66-84).  Field names drop the Python leading underscore. -/
structure QubitDevice where
  num_wires : Nat
  shots : Nat
  analytic : Bool
  wires_used : Finset Nat
  memory : Bool
  samples : Option (List (List Nat))
deriving DecidableEq

/-- A circuit as consumed by `execute`: ordered operations and observables. -/
structure Circuit where
  operations : List Operation
  observables : List Observable

/-- `reset` (lines 86-94): restore the measurement state to its
just-constructed value. -/
def reset (d : QubitDevice) : QubitDevice :=
  { d with wires_used := ∅, memory := false, samples := none }

/-- Flattening of one wire entry, as done by the
`if isinstance(wire, int): wires.append(wire) else: wires.extend(wire)`
branch of `rotate_basis` (lines 170-174). -/
def flattenOne (acc : List Nat) : WireSpec → List Nat
  | WireSpec.single x => acc ++ [x]
  | WireSpec.group xs => acc ++ xs

/-- All wire indices of an observable, nested groupings flattened
(also the effect of `np.hstack(wires)` in `sample` and `marginal_prob`). -/
def flattenWires (ws : List WireSpec) : List Nat :=
  ws.foldl flattenOne []

/-- One iteration of the `for observable in observables` loop of
`rotate_basis` (lines 164-174), acting on the loop state
(memory flag, accumulated rotation gates, accumulated wire list). -/
def rotateStep (s : Bool × List Operation × List Nat) (o : Observable) :
    Bool × List Operation × List Nat :=
  let mem := s.1 || decide (o.return_type = some ReturnType.Sample)
  let gates := s.2.1 ++ o.diagonalizing_gates
  let ws := s.2.2 ++ flattenWires o.wires
  (mem, gates, ws)

/-- `rotate_basis` (lines 151-180): set `_memory` when a `Sample` return
type is seen, concatenate the diagonalizing gates, and store
`set(wires)` into `_wires_used`.  Returns the updated device state and the
rotation gate list. -/
def rotate_basis (d : QubitDevice) (observables : List Observable) :
    QubitDevice × List Operation :=
  let r := observables.foldl rotateStep (d.memory, [], [])
  ({ d with memory := r.1, wires_used := r.2.2.toFinset }, r.2.1)

/-- Inverse-CDF index selection: the smallest index whose cumulative
probability exceeds the uniform draw `u` (`np.random.choice` computes the
cumulative sums of `p` and searchsorted-right of the uniform variate).
`acc` is the cumulative probability of the entries already passed. -/
def choiceAux (u : ℚ) (acc : ℚ) : List ℚ → Nat
  | [] => 0
  | w :: rest => if u < acc + w then 0 else 1 + choiceAux u (acc + w) rest

/-- One categorical draw from `p` driven by the uniform draw `u`, clipped to
a valid index as `np.random.choice` guarantees for a normalised `p`. -/
def npChoiceIdx (p : List ℚ) (u : ℚ) : Nat :=
  min (choiceAux u 0 p) (p.length - 1)

/-- `sample_basis_states` (lines 237-250): `basis_states = np.arange(number_of_states)`
and `np.random.choice(basis_states, self.shots, p=state_probability)`.
Since `basis_states` is `arange`, the drawn value equals the drawn index.
`np.random.choice` raises a `ValueError` when `p` does not have the length
of `basis_states` or the population is empty; that failure is the `none`
result.  `shots` is the device's shot count; `rng` the injected stream of
uniform draws. -/
def sample_basis_states (shots : Nat) (number_of_states : Nat)
    (state_probability : List ℚ) (rng : Nat → ℚ) : Option (List Nat) :=
  if state_probability.length = number_of_states ∧ 0 < number_of_states then
    some ((List.range shots).map (fun t => npChoiceIdx state_probability (rng t)))
  else
    none

/-- `states_to_binary` (lines 252-267):
`powers_of_two = 1 << np.arange(number_of_states)`,
`states_sampled_base_ten = samples[:, None] & powers_of_two`, and
`(states_sampled_base_ten > 0).astype(int)`.  Row `s` therefore has one
column per element of `arange(number_of_states)`, column `j` holding 1
exactly when `s & (1 << j) > 0`. -/
def states_to_binary (samples : List Nat) (number_of_states : Nat) :
    List (List Nat) :=
  samples.map (fun s =>
    (List.range number_of_states).map (fun j =>
      if 0 < s &&& (1 <<< j) then 1 else 0))

/-- `generate_samples` (lines 219-235): `number_of_states = 2 ** len(self._wires_used)`,
draw via `sample_basis_states` from `self.probability(self._wires_used)`,
and store `states_to_binary(samples, number_of_states)` in `_samples`.
`probFn` is the abstract backend `probability`; the Python `set` of used
wires is passed to it in ascending order (CPython small-int set iteration
order). -/
def generate_samples (d : QubitDevice) (probFn : List Nat → List ℚ)
    (rng : Nat → ℚ) : Option QubitDevice :=
  let number_of_states := 2 ^ d.wires_used.card
  let rotated_prob := probFn (d.wires_used.sort (· ≤ ·))
  match sample_basis_states d.shots number_of_states rotated_prob rng with
  | none => none
  | some samples =>
      some { d with samples := some (states_to_binary samples number_of_states) }

/-- Bit of the row-major flat index `i` along axis `pos` of a tensor of
shape `[2] * len` (`prob.reshape([2] * self.num_wires)`): axis 0 is the
most significant bit. -/
def axisBit (len pos i : Nat) : Bool :=
  i.testBit (len - 1 - pos)

/-- Entry `q` of the flattened `np.apply_over_axes(np.sum, prob, inactive_wires)`
result: the sum of `prob` over all row-major flat indices `i` that agree
with `q` on every active axis. -/
def marginalEntry (num_wires : Nat) (active : List Nat) (prob : List ℚ)
    (q : Nat) : ℚ :=
  Finset.sum (Finset.range (2 ^ num_wires)) (fun i =>
    if (∀ k ∈ Finset.range active.length,
        axisBit num_wires (active.getD k 0) i = axisBit active.length k q)
    then prob.getD i 0 else 0)

/-- `marginal_prob` (lines 286-307).  `wires = list(wires or range(self.num_wires))`
(a `None` or empty argument falls back to the full range — Python truthiness),
the inactive wires are `set(range(num_wires)) - set(wires)`, the vector is
reshaped to `[2] * num_wires` (a `ValueError`, modelled as `none`, when the
length is not `2 ** num_wires`) and summed over the inactive axes with
dimensions kept, then flattened.  Entry `q` of the flattened result is
`marginalEntry` above, the active axes kept in their original device order.
Wire arguments are flat ints here; nested groupings are flattened by
callers (`np.hstack`). -/
def marginal_prob (num_wires : Nat) (prob : List ℚ)
    (wires : Option (List Nat)) : Option (List ℚ) :=
  let ws := match wires with
    | none => List.range num_wires
    | some l => if l.isEmpty then List.range num_wires else l
  let active := (List.range num_wires).filter (fun w => decide (w ∈ ws))
  if prob.length = 2 ^ num_wires then
    some ((List.range (2 ^ active.length)).map (marginalEntry num_wires active prob))
  else
    none

/-- The observable names special-cased by `sample` (line 337). -/
def pauliNames : List String := ["PauliX", "PauliY", "PauliZ", "Hadamard"]

/-- `wires[0]` as used by `self._samples[:, wires[0]]` in the special-cased
branch of `sample` (line 339); for the special-cased single-wire observables
this entry is a plain int. -/
def firstWire : List WireSpec → Nat
  | WireSpec.single w :: _ => w
  | WireSpec.group ws :: _ => ws.headD 0
  | [] => 0

/-- The general path of `sample` (lines 341-347): flatten the wires,
extract those columns of the sample matrix, form the big-endian index
(`np.ravel_multi_index(samples.T, [2] * len(wires))`, C order: the first
wire is most significant) and look up `observable.eigvals[indices]`.
Out-of-range numpy indexing is modelled by `getD _ 0` defaults; the claims
using this path carry the hypotheses keeping every access in range. -/
def sampleGeneral (samples : List (List Nat)) (o : Observable) : List ℚ :=
  let ws := flattenWires o.wires
  samples.map (fun row =>
    let idx := ws.foldl (fun acc w => 2 * acc + row.getD w 0) 0
    o.eigvals.getD idx 0)

/-- `sample` (lines 333-347): observables named `PauliX`, `PauliY`,
`PauliZ` or `Hadamard` take the optimized path `1 - 2 * samples[:, wires[0]]`;
every other observable takes the general eigenvalue-lookup path. -/
def sample (samples : List (List Nat)) (o : Observable) : List ℚ :=
  if o.name ∈ pauliNames then
    samples.map (fun row => 1 - 2 * (row.getD (firstWire o.wires) 0 : ℚ))
  else
    sampleGeneral samples o

/-- `np.mean` of a 1-d array (division by zero yields `0` in `ℚ`;
the empty case arises only with zero shots, outside every claim). -/
def npMean (xs : List ℚ) : ℚ := xs.sum / xs.length

/-- `np.var` of a 1-d array: population variance (no Bessel correction). -/
def npVar (xs : List ℚ) : ℚ :=
  npMean (xs.map (fun x => (x - npMean xs) ^ 2))

/-- `eigvals @ prob` (numpy dot product of two equal-length vectors; the
backend contract gives `prob` length `2 ** len(wires)`). -/
def dot (a b : List ℚ) : ℚ := (List.zipWith (· * ·) a b).sum

/-- The sample matrix `self._samples` (a `TypeError` in Python when still
`None`; the claims all run after `generate_samples`). -/
def samplesOf (d : QubitDevice) : List (List Nat) := d.samples.getD []

/-- `expval` (lines 309-319): analytic mode takes `(eigvals @ prob).real`
(the eigenvalues are real-valued by construction, modelled directly in `ℚ`),
non-analytic mode the mean of the decoded samples. -/
def expval (d : QubitDevice) (probFn : List Nat → List ℚ) (o : Observable) : ℚ :=
  if d.analytic then dot o.eigvals (probFn (flattenWires o.wires))
  else npMean (sample (samplesOf d) o)

/-- `var` (lines 321-331): analytic mode takes
`(eigvals ** 2) @ prob - (eigvals @ prob).real ** 2`, non-analytic mode the
population variance of the decoded samples. -/
def var (d : QubitDevice) (probFn : List Nat → List ℚ) (o : Observable) : ℚ :=
  if d.analytic then
    dot (o.eigvals.map (fun e => e ^ 2)) (probFn (flattenWires o.wires)) -
      (dot o.eigvals (probFn (flattenWires o.wires))) ^ 2
  else npVar (sample (samplesOf d) o)

/-- One entry of the execution result collection: a scalar statistic or a
per-shot / per-basis-state array. -/
inductive Result where
  | scalar (x : ℚ)
  | array (xs : List ℚ)
deriving DecidableEq, Repr

/-- `statistics` (lines 182-217): dispatch each observable on its
`return_type`; `None` is skipped; any other unrecognised value raises
`QuantumFunctionError("Unsupported return type specified for observable {name}")`,
aborting with no partial result.  The `Probability` branch delegates to the
abstract backend `probability(wires=obs.wires)`. -/
def statistics (d : QubitDevice) (probFn : List Nat → List ℚ) :
    List Observable → Except String (List Result)
  | [] => Except.ok []
  | o :: rest =>
    match o.return_type with
    | some ReturnType.Expectation =>
        (statistics d probFn rest).map (fun rs => Result.scalar (expval d probFn o) :: rs)
    | some ReturnType.Variance =>
        (statistics d probFn rest).map (fun rs => Result.scalar (var d probFn o) :: rs)
    | some ReturnType.Sample =>
        (statistics d probFn rest).map (fun rs => Result.array (sample (samplesOf d) o) :: rs)
    | some ReturnType.Probability =>
        (statistics d probFn rest).map (fun rs => Result.array (probFn (flattenWires o.wires)) :: rs)
    | some (ReturnType.Other _) =>
        Except.error ("Unsupported return type specified for observable " ++ o.name)
    | none => statistics d probFn rest

/-- Python `any` on a generator: consume elements up to and including the
first `True`; return whether one was found together with the elements the
generator still holds. -/
def anyTake : List Bool → Bool × List Bool
  | [] => (false, [])
  | b :: rest => if b then (true, rest) else anyTake rest

/-- The packaging decision of `execute` (lines 135-136):
`sample_return_types` is a *generator*, so
`any(sample_return_types) and not all(sample_return_types)` runs `all` on
whatever the generator has left after `any` consumed it up to the first
`True`. -/
def sampleMixDecision (flags : List Bool) : Bool :=
  let r := anyTake flags
  r.1 && !(r.2.all (fun b => b))

/-- Packaged execution result: `np.asarray(results, dtype="object")`
(heterogeneous container), `np.asarray(results)` (uniform numeric array),
or a raised error. -/
inductive ExecResult where
  | objectArr (rs : List Result)
  | numericArr (rs : List Result)
  | failure (msg : String)
deriving DecidableEq, Repr

/-- `execute` (lines 96-139): validate (abstract `Device.check_validity`,
a no-op for supported circuits), rotate the basis, delegate to the abstract
backend `apply` (which only mutates backend state), generate samples
unconditionally, compute statistics, and package: wrap in an object-dtype
array exactly when the generator-based mixed-return-type test fires. -/
def execute (d : QubitDevice) (probFn : List Nat → List ℚ) (rng : Nat → ℚ)
    (c : Circuit) : ExecResult :=
  let rot := rotate_basis d c.observables
  match generate_samples rot.1 probFn rng with
  | none => ExecResult.failure "probabilities do not match the sampled basis states"
  | some d2 =>
    match statistics d2 probFn c.observables with
    | Except.error msg => ExecResult.failure msg
    | Except.ok results =>
      let flags := c.observables.map (fun o => decide (o.return_type = some ReturnType.Sample))
      if sampleMixDecision flags then ExecResult.objectArr results
      else ExecResult.numericArr results

/-! ## Statement-side definitions -/

/-- A return type `statistics` rejects: anything not `None` and not one of
the four recognized kinds. -/
def isUnsupported : Option ReturnType → Bool
  | some (ReturnType.Other _) => true
  | _ => false

/-- A return type that contributes one entry to the result collection. -/
def isMeasured : Option ReturnType → Bool
  | some ReturnType.Expectation => true
  | some ReturnType.Variance => true
  | some ReturnType.Sample => true
  | some ReturnType.Probability => true
  | some (ReturnType.Other _) => false
  | none => false

/-- The raised error of a `statistics` run, if any. -/
def exceptErr : Except String (List Result) → Option String
  | Except.error e => some e
  | Except.ok _ => none

/-- The size of the returned result collection of a `statistics` run, if it
returned one. -/
def exceptLen : Except String (List Result) → Option Nat
  | Except.error _ => none
  | Except.ok rs => some rs.length

/-- Re-encoding of a decoded bit row to an integer under the decoding
convention of `states_to_binary`: entry `j` carries weight `2 ^ j`. -/
def encodeBits : List Nat → Nat
  | [] => 0
  | b :: rest => b + 2 * encodeBits rest

/-- A fixed injected uniform-draw stream taking values 0, 1, 2, … (used to
exercise several distinct draws in witnesses). -/
def rngCount : Nat → ℚ := fun t => t


/-! ## Concrete instances used by witnesses and counterexamples -/

/-- A Pauli-Z expectation observable on wire 0. -/
def pauliZExp : Observable :=
  { name := "PauliZ", wires := [WireSpec.single 0],
    return_type := some ReturnType.Expectation, eigvals := [1, -1],
    diagonalizing_gates := [] }

/-- A Pauli-Z sample observable on wire 1. -/
def pauliZSample : Observable :=
  { name := "PauliZ", wires := [WireSpec.single 1],
    return_type := some ReturnType.Sample, eigvals := [1, -1],
    diagonalizing_gates := [] }

/-- A two-wire non-analytic device, fresh from `reset`. -/
def devTwoWire : QubitDevice :=
  { num_wires := 2, shots := 10, analytic := false, wires_used := ∅,
    memory := false, samples := none }

/-- A one-wire non-analytic single-shot device about to sample wire 0. -/
def devOneWire : QubitDevice :=
  { num_wires := 1, shots := 1, analytic := false, wires_used := {0},
    memory := true, samples := none }

/-- A deterministic backend probability: all mass on basis state 0 of two
wires. -/
def probFour : List Nat → List ℚ := fun _ => [1, 0, 0, 0]

/-- A deterministic backend probability: all mass on basis state 0 of one
wire. -/
def probTwo : List Nat → List ℚ := fun _ => [1, 0]

/-- A fixed (seeded) uniform-draw stream: always 0. -/
def rngZero : Nat → ℚ := fun _ => 0

/-- A two-wire observable listing its wires as `[2, 0]`. -/
def obsWires20 : Observable :=
  { name := "Hermitian", wires := [WireSpec.single 2, WireSpec.single 0],
    return_type := some ReturnType.Expectation, eigvals := [1, 1, 1, 1],
    diagonalizing_gates := [] }

/-- A two-wire observable listing its wires as `[0, 2]`. -/
def obsWires02 : Observable :=
  { name := "Hermitian", wires := [WireSpec.single 0, WireSpec.single 2],
    return_type := some ReturnType.Expectation, eigvals := [1, 1, 1, 1],
    diagonalizing_gates := [] }

/-! ## Helper lemmas -/

lemma foldl_rotateStep (obs : List Observable) (m : Bool) (g : List Operation)
    (w : List Nat) :
    obs.foldl rotateStep (m, g, w) =
      (m || obs.any (fun o => decide (o.return_type = some ReturnType.Sample)),
       g ++ obs.flatMap (fun o => o.diagonalizing_gates),
       w ++ obs.flatMap (fun o => flattenWires o.wires)) := by
  induction obs generalizing m g w with
  | nil => simp
  | cons o rest ih => simp [rotateStep, ih, Bool.or_assoc]

lemma rotate_basis_wires_used (d : QubitDevice) (obs : List Observable) :
    (rotate_basis d obs).1.wires_used
      = (obs.flatMap (fun o => flattenWires o.wires)).toFinset := by
  simp [rotate_basis, foldl_rotateStep]

lemma rotate_basis_memory (d : QubitDevice) (obs : List Observable) :
    (rotate_basis d obs).1.memory
      = (d.memory
          || obs.any (fun o => decide (o.return_type = some ReturnType.Sample))) := by
  simp [rotate_basis, foldl_rotateStep]

lemma flatMap_perm_of_forall₂ {obs obs₂ : List Observable}
    (h : List.Forall₂
      (fun o o₂ => (flattenWires o.wires).Perm (flattenWires o₂.wires)) obs obs₂) :
    (obs.flatMap (fun o => flattenWires o.wires)).Perm
      (obs₂.flatMap (fun o => flattenWires o.wires)) := by
  induction h with
  | nil => simp
  | cons h₁ _ ih => simpa using h₁.append ih

/-! ## C8 -/

/-- C8: after `rotate_basis`, `_wires_used` equals the set union of all wire
indices referenced by the observables, nested wire groupings flattened, and
this set does not depend on the order in which the wires are listed within
each observable. -/
theorem C8_wires_used_union (d d₂ : QubitDevice) (obs obs₂ : List Observable) :
    (rotate_basis d obs).1.wires_used
        = (obs.flatMap (fun o => flattenWires o.wires)).toFinset
    ∧ (List.Forall₂
          (fun o o₂ => (flattenWires o.wires).Perm (flattenWires o₂.wires))
          obs obs₂ →
        (rotate_basis d obs).1.wires_used = (rotate_basis d₂ obs₂).1.wires_used) := by
  refine ⟨rotate_basis_wires_used d obs, fun h => ?_⟩
  rw [rotate_basis_wires_used, rotate_basis_wires_used]
  exact List.toFinset_eq_of_perm _ _ (flatMap_perm_of_forall₂ h)

/-- C8 witness: an observable acting on wires `[2, 0]` and the same
observable with wires `[0, 2]` produce the same `_wires_used`, namely
`{0, 2}`. -/
theorem C8_wires_used_union_witness :
    (rotate_basis devTwoWire [obsWires20]).1.wires_used
      = (rotate_basis devTwoWire [obsWires02]).1.wires_used :=
  (C8_wires_used_union devTwoWire devTwoWire [obsWires20] [obsWires02]).2
    (List.Forall₂.cons (by decide) List.Forall₂.nil)

/-! ## C9 -/

/-- C9 counterexample: on a freshly reset non-analytic device, an execution
whose only observable requests an `Expectation` leaves `_memory` false after
`rotate_basis`, although the device is in non-analytic mode — refuting the
claimed "true iff a Sample return type is present or the device is
non-analytic". -/
theorem C9_memory_counterexample :
    devTwoWire.analytic = false
    ∧ (rotate_basis devTwoWire [pauliZExp]).1.memory = false := by
  decide

/-- C9 (amended): after `rotate_basis`, `_memory` is true iff it was already
true or some observable has return-type `Sample`; non-analytic mode plays no
role.  `generate_samples` never changes the flag and `reset` clears it, so
once set within an execution the flag stays set until `reset`. -/
theorem C9_memory_spec (d : QubitDevice) (obs : List Observable)
    (probFn : List Nat → List ℚ) (rng : Nat → ℚ) :
    (rotate_basis d obs).1.memory
        = (d.memory
            || obs.any (fun o => decide (o.return_type = some ReturnType.Sample)))
    ∧ (generate_samples d probFn rng).map QubitDevice.memory
        = (generate_samples d probFn rng).map (fun _ => d.memory)
    ∧ (reset d).memory = false := by
  refine ⟨rotate_basis_memory d obs, ?_, rfl⟩
  unfold generate_samples
  cases h : sample_basis_states d.shots (2 ^ d.wires_used.card)
      (probFn (d.wires_used.sort (· ≤ ·))) rng <;> simp [h]

/-! ## Marginalization lemmas -/

lemma getD_range (n k : Nat) (hk : k < n) : (List.range n).getD k 0 = k := by
  rw [List.getD_eq_getElem?_getD, List.getElem?_range hk]
  rfl

lemma eq_of_testBit_below {n i q : Nat} (hi : i < 2 ^ n) (hq : q < 2 ^ n)
    (h : ∀ k, k < n → i.testBit (n - 1 - k) = q.testBit (n - 1 - k)) : i = q := by
  apply Nat.eq_of_testBit_eq
  intro j
  by_cases hj : j < n
  · have h₁ := h (n - 1 - j) (by omega)
    have h₂ : n - 1 - (n - 1 - j) = j := by omega
    rwa [h₂] at h₁
  · have hpow : (2 : Nat) ^ n ≤ 2 ^ j := Nat.pow_le_pow_right (by omega) (by omega)
    rw [Nat.testBit_lt_two_pow (lt_of_lt_of_le hi hpow),
      Nat.testBit_lt_two_pow (lt_of_lt_of_le hq hpow)]

lemma marginalEntry_range (n : Nat) (P : List ℚ) (q : Nat) (hq : q < 2 ^ n) :
    marginalEntry n (List.range n) P q = P.getD q 0 := by
  unfold marginalEntry
  rw [List.length_range]
  have hcong : ∀ i ∈ Finset.range (2 ^ n),
      (if (∀ k ∈ Finset.range n,
            axisBit n ((List.range n).getD k 0) i = axisBit n k q)
        then P.getD i 0 else 0)
        = (if i = q then P.getD i 0 else 0) := by
    intro i hi
    refine if_congr ?_ rfl rfl
    constructor
    · intro hk
      refine eq_of_testBit_below (Finset.mem_range.mp hi) hq (fun k hkn => ?_)
      have := hk k (Finset.mem_range.mpr hkn)
      rwa [getD_range n k hkn] at this
    · rintro rfl
      intro k hk
      rw [getD_range n k (Finset.mem_range.mp hk)]
  rw [Finset.sum_congr rfl hcong, Finset.sum_ite_eq' (Finset.range (2 ^ n)) q]
  simp [Finset.mem_range.mpr hq]

lemma map_getD_range (P : List ℚ) (L : Nat) (h : P.length = L) :
    (List.range L).map (fun q => P.getD q 0) = P := by
  apply List.ext_getElem
  · simp [h]
  · intro q h₁ h₂
    rw [List.getElem_map, List.getElem_range]
    rw [List.getD_eq_getElem?_getD, List.getElem?_eq_getElem h₂]
    rfl

lemma marginal_prob_none (n : Nat) (P : List ℚ) (h : P.length = 2 ^ n) :
    marginal_prob n P none = some P := by
  unfold marginal_prob
  have hact : (List.range n).filter (fun w => decide (w ∈ List.range n))
      = List.range n :=
    List.filter_eq_self.mpr (fun a ha => by simpa using ha)
  simp only [hact, if_pos h, List.length_range]
  refine congrArg some ?_
  have : ∀ q ∈ List.range (2 ^ n),
      marginalEntry n (List.range n) P q = P.getD q 0 := fun q hq =>
    marginalEntry_range n P q (List.mem_range.mp hq)
  rw [List.map_congr_left this, map_getD_range P (2 ^ n) h]

lemma marginal_prob_empty_eq_none (n : Nat) (P : List ℚ) :
    marginal_prob n P (some []) = marginal_prob n P none := rfl

lemma marginal_prob_some_range_eq_none (n : Nat) (P : List ℚ) :
    marginal_prob n P (some (List.range n)) = marginal_prob n P none := by
  simp only [marginal_prob, ite_self]

/-! ## C5 -/

/-- C5: marginalizing a full joint probability vector to the full ordered
wire range of the device returns it unchanged. -/
theorem C5_marginal_identity (n : Nat) (P : List ℚ) (h : P.length = 2 ^ n) :
    marginal_prob n P (some (List.range n)) = some P := by
  rw [marginal_prob_some_range_eq_none, marginal_prob_none n P h]

/-- C5 witness at a concrete two-wire probability vector. -/
theorem C5_marginal_identity_witness :
    marginal_prob 2 [(1 : ℚ)/8, 1/8, 1/4, 1/2] (some (List.range 2))
      = some [(1 : ℚ)/8, 1/8, 1/4, 1/2] :=
  C5_marginal_identity 2 [(1 : ℚ)/8, 1/8, 1/4, 1/2] (by decide)

/-! ## C10 -/

/-- C10: `marginal_prob` with an empty wire sequence behaves exactly like
`wires=None` (Python truthiness of the empty list): it returns the full
joint distribution unchanged, not the length-1 marginal over zero wires. -/
theorem C10_empty_wires (n : Nat) (P : List ℚ) :
    marginal_prob n P (some []) = marginal_prob n P none
    ∧ (P.length = 2 ^ n → marginal_prob n P (some []) = some P) :=
  ⟨marginal_prob_empty_eq_none n P,
   fun h => (marginal_prob_empty_eq_none n P).trans (marginal_prob_none n P h)⟩

/-- C10 witness at a concrete two-wire probability vector. -/
theorem C10_empty_wires_witness :
    marginal_prob 2 [(1 : ℚ)/8, 1/8, 1/4, 1/2] (some [])
        = marginal_prob 2 [(1 : ℚ)/8, 1/8, 1/4, 1/2] none
    ∧ marginal_prob 2 [(1 : ℚ)/8, 1/8, 1/4, 1/2] (some [])
        = some [(1 : ℚ)/8, 1/8, 1/4, 1/2] :=
  ⟨(C10_empty_wires 2 [(1 : ℚ)/8, 1/8, 1/4, 1/2]).1,
   (C10_empty_wires 2 [(1 : ℚ)/8, 1/8, 1/4, 1/2]).2 (by decide)⟩

/-! ## C6 -/

/-- C6 counterexample: marginalizing `[1, 0, 0, 0]` on a two-wire device to
`A = [0]` succeeds (`[1, 0]`), but feeding that result back into
`marginal_prob` to marginalize further to `B = [0] ⊆ A` fails — the second
call reshapes its input to `[2] * num_wires` and a length-2 vector is not a
`2 × 2` tensor — so the composition differs from marginalizing directly to
`B`. -/
theorem C6_composability_counterexample :
    marginal_prob 2 [1, 0, 0, 0] (some [0]) = some [1, 0]
    ∧ (marginal_prob 2 [1, 0, 0, 0] (some [0])).bind
        (fun q => marginal_prob 2 q (some [0])) = none
    ∧ (marginal_prob 2 [1, 0, 0, 0] (some [0])).bind
        (fun q => marginal_prob 2 q (some [0]))
      ≠ marginal_prob 2 [1, 0, 0, 0] (some [0]) := by
  have h1 : marginal_prob 2 [1, 0, 0, 0] (some [0]) = some [1, 0] := by
    simp [marginal_prob, marginalEntry, axisBit, List.range_succ,
      Finset.sum_range_succ]
  have h2 : marginal_prob 2 [(1 : ℚ), 0] (some [0]) = none := by
    simp [marginal_prob]
  refine ⟨h1, ?_, ?_⟩
  · rw [h1, Option.some_bind, h2]
  · rw [h1, Option.some_bind, h2]
    simp

/-- C6 (amended): chaining two `marginal_prob` calls on the same device
composes only in the degenerate case where the first target set `A` is the
full wire range — then the first call is the identity and the chain equals
marginalizing directly to `B`.  For any proper subset `A` the second call
fails its reshape, as the counterexample shows. -/
theorem C6_composability_full (n : Nat) (P : List ℚ) (B : List Nat)
    (h : P.length = 2 ^ n) :
    (marginal_prob n P (some (List.range n))).bind
        (fun q => marginal_prob n q (some B))
      = marginal_prob n P (some B) := by
  rw [marginal_prob_some_range_eq_none, marginal_prob_none n P h, Option.some_bind]

/-- C6 witness: with `A` the full range of the two-wire device and
`B = [1]`, the chained marginalization equals the direct one. -/
theorem C6_composability_full_witness :
    (marginal_prob 2 [(1 : ℚ)/8, 1/8, 1/4, 1/2] (some (List.range 2))).bind
        (fun q => marginal_prob 2 q (some [1]))
      = marginal_prob 2 [(1 : ℚ)/8, 1/8, 1/4, 1/2] (some [1]) :=
  C6_composability_full 2 [(1 : ℚ)/8, 1/8, 1/4, 1/2] [1] (by decide)

/-! ## C7 -/

lemma exceptErr_map (f : List Result → List Result)
    (e : Except String (List Result)) : exceptErr (e.map f) = exceptErr e := by
  cases e <;> rfl

lemma exceptLen_map (x : Result) (e : Except String (List Result)) :
    exceptLen (e.map (fun rs => x :: rs)) = (exceptLen e).map (fun n => n + 1) := by
  cases e <;> rfl

lemma return_type_trichotomy (t : Option ReturnType) :
    (∃ desc, t = some (ReturnType.Other desc))
    ∨ (isMeasured t = true ∧ isUnsupported t = false)
    ∨ (t = none ∧ isMeasured t = false ∧ isUnsupported t = false) := by
  match t with
  | none => exact Or.inr (Or.inr ⟨rfl, rfl, rfl⟩)
  | some ReturnType.Expectation => exact Or.inr (Or.inl ⟨rfl, rfl⟩)
  | some ReturnType.Variance => exact Or.inr (Or.inl ⟨rfl, rfl⟩)
  | some ReturnType.Sample => exact Or.inr (Or.inl ⟨rfl, rfl⟩)
  | some ReturnType.Probability => exact Or.inr (Or.inl ⟨rfl, rfl⟩)
  | some (ReturnType.Other desc) => exact Or.inl ⟨desc, rfl⟩

lemma statistics_cons_measured (d : QubitDevice) (probFn : List Nat → List ℚ)
    (o : Observable) (rest : List Observable)
    (hm : isMeasured o.return_type = true) :
    ∃ x, statistics d probFn (o :: rest)
      = (statistics d probFn rest).map (fun rs => x :: rs) := by
  match h : o.return_type with
  | some ReturnType.Expectation =>
      exact ⟨Result.scalar (expval d probFn o), by simp [statistics, h]⟩
  | some ReturnType.Variance =>
      exact ⟨Result.scalar (var d probFn o), by simp [statistics, h]⟩
  | some ReturnType.Sample =>
      exact ⟨Result.array (sample (samplesOf d) o), by simp [statistics, h]⟩
  | some ReturnType.Probability =>
      exact ⟨Result.array (probFn (flattenWires o.wires)), by simp [statistics, h]⟩
  | some (ReturnType.Other desc) => rw [h] at hm; exact absurd hm (by simp [isMeasured])
  | none => rw [h] at hm; exact absurd hm (by simp [isMeasured])

/-- C7: `statistics` raises exactly when some observable has an
unrecognised non-`None` return type, the raised message naming the first
such observable; otherwise it returns one entry per measured observable,
observables with return type `None` contributing nothing.  An error carries
no partial result collection (`exceptLen` is `none`). -/
theorem C7_statistics_errors (d : QubitDevice) (probFn : List Nat → List ℚ)
    (obs : List Observable) :
    exceptErr (statistics d probFn obs)
        = (obs.find? (fun o => isUnsupported o.return_type)).map
            (fun o => "Unsupported return type specified for observable " ++ o.name)
    ∧ exceptLen (statistics d probFn obs)
        = (if obs.any (fun o => isUnsupported o.return_type) then none
           else some ((obs.filter (fun o => isMeasured o.return_type)).length)) := by
  induction obs with
  | nil => exact ⟨rfl, rfl⟩
  | cons o rest ih =>
    obtain ⟨ih₁, ih₂⟩ := ih
    rcases return_type_trichotomy o.return_type with ⟨desc, h⟩ | ⟨hm, hu⟩ | ⟨h, hm, hu⟩
    · constructor
      · simp [statistics, h, exceptErr, List.find?_cons, isUnsupported]
      · simp [statistics, h, exceptLen, List.any_cons, isUnsupported]
    · obtain ⟨x, e1⟩ := statistics_cons_measured d probFn o rest hm
      have hf : List.find? (fun o => isUnsupported o.return_type) (o :: rest)
          = List.find? (fun o => isUnsupported o.return_type) rest := by
        rw [List.find?_cons]; simp [hu]
      constructor
      · rw [e1, exceptErr_map, ih₁, hf]
      · rw [e1, exceptLen_map x, ih₂]
        cases hany : rest.any (fun o => isUnsupported o.return_type) <;>
          simp [hany, List.any_cons, List.filter_cons, hu, hm]
    · have e1 : statistics d probFn (o :: rest) = statistics d probFn rest := by
        simp [statistics, h]
      have hf : List.find? (fun o => isUnsupported o.return_type) (o :: rest)
          = List.find? (fun o => isUnsupported o.return_type) rest := by
        rw [List.find?_cons]; simp [hu]
      constructor
      · rw [e1, ih₁, hf]
      · rw [e1, ih₂]
        simp [List.any_cons, List.filter_cons, hu, hm]

/-! ## C4 -/

lemma and_shiftLeft_pos_iff (s j : Nat) :
    0 < s &&& (1 <<< j) ↔ s.testBit j = true := by
  have hpow : (1 : Nat) <<< j = 2 ^ j := by
    rw [Nat.shiftLeft_eq, one_mul]
  rw [hpow]
  constructor
  · intro h
    by_contra hb
    rw [Bool.not_eq_true] at hb
    have hz : s &&& 2 ^ j = 0 := by
      apply Nat.eq_of_testBit_eq
      intro k
      rw [Nat.testBit_and, Nat.zero_testBit]
      by_cases hk : k = j
      · subst hk; rw [hb]; rfl
      · rw [Nat.testBit_two_pow_of_ne (Ne.symm hk)]
        exact Bool.and_false _
    omega
  · intro h
    have h2 : (s &&& 2 ^ j).testBit j = true := by
      rw [Nat.testBit_and, h, Nat.testBit_two_pow_self]
      rfl
    rcases Nat.eq_zero_or_pos (s &&& 2 ^ j) with hz | hp
    · rw [hz, Nat.zero_testBit] at h2
      exact absurd h2 (by simp)
    · exact hp

lemma binRow_eq_testBit (s N : Nat) :
    (List.range N).map (fun j => if 0 < s &&& (1 <<< j) then 1 else 0)
      = (List.range N).map (fun j => if s.testBit j then 1 else 0) := by
  refine List.map_congr_left (fun j _ => ?_)
  exact if_congr (and_shiftLeft_pos_iff s j) rfl rfl

lemma encode_testBit_row (N : Nat) : ∀ s, s < 2 ^ N →
    encodeBits ((List.range N).map (fun j => if s.testBit j then 1 else 0)) = s := by
  induction N with
  | zero =>
      intro s hs
      have : s = 0 := by simpa using hs
      subst this
      rfl
  | succ N ih =>
      intro s hs
      rw [List.range_succ_eq_map, List.map_cons, List.map_map]
      have hmap : List.map ((fun j => if s.testBit j then 1 else 0) ∘ Nat.succ)
            (List.range N)
          = List.map (fun j => if (s / 2).testBit j then 1 else 0) (List.range N) := by
        refine List.map_congr_left (fun j _ => ?_)
        simp [Function.comp, Nat.testBit_succ]
      rw [hmap]
      have hdiv : s / 2 < 2 ^ N := by
        rw [Nat.div_lt_iff_lt_mul (by omega)]
        calc s < 2 ^ (N + 1) := hs
        _ = 2 ^ N * 2 := by rw [Nat.pow_succ]
      show (if s.testBit 0 then 1 else 0) + 2 * encodeBits _ = s
      rw [ih (s / 2) hdiv, Nat.testBit_zero]
      rcases Nat.mod_two_eq_zero_or_one s with h | h <;> simp [h] <;> omega

lemma encodeBits_binRow (N s : Nat) (hs : s < 2 ^ N) :
    encodeBits ((List.range N).map (fun j => if 0 < s &&& (1 <<< j) then 1 else 0))
      = s := by
  rw [binRow_eq_testBit]
  exact encode_testBit_row N s hs

lemma sample_basis_states_lt (shots N : Nat) (p : List ℚ) (rng : Nat → ℚ)
    (ss : List Nat) (h : sample_basis_states shots N p rng = some ss) :
    ∀ s ∈ ss, s < N := by
  unfold sample_basis_states at h
  by_cases hc : p.length = N ∧ 0 < N
  · rw [if_pos hc] at h
    simp only [Option.some.injEq] at h
    intro s hsmem
    rw [← h] at hsmem
    simp only [List.mem_map] at hsmem
    obtain ⟨t, _, rfl⟩ := hsmem
    calc npChoiceIdx p (rng t) ≤ p.length - 1 := min_le_right _ _
    _ < N := by omega
  · rw [if_neg hc] at h
    exact absurd h (by simp)

/-- C4: every basis-state integer drawn by `sample_basis_states` from
`2 ^ n` states round-trips through `states_to_binary`: re-encoding the
decoded bit row under the same bit-to-position convention reproduces the
drawn integer, for every sample in the list. -/
theorem C4_sample_round_trip (shots n : Nat) (p : List ℚ) (rng : Nat → ℚ)
    (ss : List Nat)
    (h : sample_basis_states shots (2 ^ n) p rng = some ss) :
    List.Forall₂ (fun row s => encodeBits row = s)
      (states_to_binary ss (2 ^ n)) ss := by
  have hlt := sample_basis_states_lt shots (2 ^ n) p rng ss h
  unfold states_to_binary
  rw [List.forall₂_map_left_iff]
  rw [List.forall₂_same]
  intro s hsmem
  refine encodeBits_binRow (2 ^ n) s ?_
  calc s < 2 ^ n := hlt s hsmem
  _ ≤ 2 ^ 2 ^ n := Nat.pow_le_pow_right (by omega) (le_of_lt (Nat.lt_two_pow n))

/-- C4 witness: two draws from `[1, 0]` over `2 ^ 1` states give the basis
states `[0, 1]`, whose decoded rows re-encode to `0` and `1`. -/
theorem C4_sample_round_trip_witness :
    List.Forall₂ (fun row s => encodeBits row = s)
      (states_to_binary [0, 1] (2 ^ 1)) [0, 1] :=
  C4_sample_round_trip 2 1 [1, 0] rngCount [0, 1]
    (by simp [sample_basis_states, npChoiceIdx, choiceAux, rngCount,
      List.range_succ])

/-! ## C2 -/

lemma sample_basis_states_length (shots N : Nat) (p : List ℚ) (rng : Nat → ℚ)
    (ss : List Nat) (h : sample_basis_states shots N p rng = some ss) :
    ss.length = shots := by
  unfold sample_basis_states at h
  by_cases hc : p.length = N ∧ 0 < N
  · rw [if_pos hc] at h
    simp only [Option.some.injEq] at h
    rw [← h]
    simp
  · rw [if_neg hc] at h
    exact absurd h (by simp)

/-- C2 counterexample: a device using one wire (`_wires_used = {0}`) stores,
after `generate_samples`, a samples row of length `2 = 2 ^ 1` — not of
length `1 = |wires_used|` as claimed: `states_to_binary` builds one column
per element of `arange(number_of_states)`, and `number_of_states = 2 ** n`. -/
theorem C2_samples_shape_counterexample :
    (generate_samples devOneWire probTwo rngZero).map (fun d => d.samples)
        = some (some [[0, 0]])
    ∧ devOneWire.wires_used.card = 1
    ∧ ([0, 0] : List Nat).length ≠ 1 := by
  refine ⟨?_, by decide, by decide⟩
  simp [generate_samples, sample_basis_states, npChoiceIdx, choiceAux,
    states_to_binary, devOneWire, probTwo, rngZero, List.range_succ]

lemma generate_samples_eq (d : QubitDevice) (probFn : List Nat → List ℚ)
    (rng : Nat → ℚ) :
    generate_samples d probFn rng
      = (sample_basis_states d.shots (2 ^ d.wires_used.card)
            (probFn (d.wires_used.sort (· ≤ ·))) rng).map
          (fun ss =>
            { d with samples := some (states_to_binary ss (2 ^ d.wires_used.card)) }) := by
  unfold generate_samples
  cases h : sample_basis_states d.shots (2 ^ d.wires_used.card)
      (probFn (d.wires_used.sort (· ≤ ·))) rng <;> simp [h]

/-- C2 (amended): after a successful `generate_samples` on a device whose
observables use `n` wires, `_samples` holds a matrix of `shots` rows, each
row of length `2 ^ n` (not `n`), with every entry 0 or 1. -/
theorem C2_samples_shape (d : QubitDevice) (probFn : List Nat → List ℚ)
    (rng : Nat → ℚ) (d₂ : QubitDevice)
    (h : generate_samples d probFn rng = some d₂) :
    ∃ M, d₂.samples = some M ∧ M.length = d.shots
      ∧ ∀ row ∈ M, row.length = 2 ^ d.wires_used.card
          ∧ ∀ x ∈ row, x = 0 ∨ x = 1 := by
  rw [generate_samples_eq] at h
  cases hs : sample_basis_states d.shots (2 ^ d.wires_used.card)
      (probFn (d.wires_used.sort (· ≤ ·))) rng with
  | none => rw [hs] at h; exact absurd h (by simp)
  | some ss =>
      rw [hs] at h
      rw [Option.map_some', Option.some.injEq] at h
      refine ⟨states_to_binary ss (2 ^ d.wires_used.card), ?_, ?_, ?_⟩
      · rw [← h]
      · have hlen := sample_basis_states_length d.shots (2 ^ d.wires_used.card)
          (probFn (d.wires_used.sort (· ≤ ·))) rng ss hs
        simp [states_to_binary, hlen]
      · intro row hrow
        simp only [states_to_binary, List.mem_map] at hrow
        obtain ⟨s, _, rfl⟩ := hrow
        refine ⟨by simp, ?_⟩
        intro x hx
        simp only [List.mem_map] at hx
        obtain ⟨j, _, rfl⟩ := hx
        by_cases h0 : 0 < s &&& (1 <<< j)
        · right; rw [if_pos h0]
        · left; rw [if_neg h0]

/-- C2 witness: the amended shape law at the concrete one-wire device — one
row of length `2 ^ 1 = 2` with entries in `{0, 1}`. -/
theorem C2_samples_shape_witness :
    ∃ M, ({ devOneWire with samples := some [[0, 0]] } : QubitDevice).samples
          = some M
      ∧ M.length = devOneWire.shots
      ∧ ∀ row ∈ M, row.length = 2 ^ devOneWire.wires_used.card
          ∧ ∀ x ∈ row, x = 0 ∨ x = 1 :=
  C2_samples_shape devOneWire probTwo rngZero
    { devOneWire with samples := some [[0, 0]] }
    (by simp [generate_samples, sample_basis_states, npChoiceIdx, choiceAux,
      states_to_binary, devOneWire, probTwo, rngZero, List.range_succ])

/-! ## C3 -/

lemma getD_zero_or_one (row : List Nat) (w : Nat)
    (hs : ∀ x ∈ row, x = 0 ∨ x = 1) : row.getD w 0 = 0 ∨ row.getD w 0 = 1 := by
  by_cases hlt : w < row.length
  · refine hs (row.getD w 0) ?_
    rw [List.getD_eq_getElem?_getD, List.getElem?_eq_getElem hlt]
    exact List.getElem_mem hlt
  · rw [List.getD_eq_default row 0 (le_of_not_lt hlt)]
    exact Or.inl rfl

/-- C3: for a single-wire observable named `PauliX`, `PauliY`, `PauliZ` or
`Hadamard` with declared eigenvalues `(+1, -1)`, on a 0/1 samples buffer the
optimized path of `sample` (`1 - 2 * bit`) agrees element-wise with the
general eigenvalue-lookup path, and every returned value is `+1` or `-1`. -/
theorem C3_sample_pauli_equiv (samples : List (List Nat)) (o : Observable)
    (w : Nat)
    (hw : o.wires = [WireSpec.single w])
    (hn : o.name ∈ pauliNames)
    (he : o.eigvals = [1, -1])
    (hs : ∀ row ∈ samples, ∀ x ∈ row, x = 0 ∨ x = 1) :
    sample samples o = sampleGeneral samples o
    ∧ ∀ v ∈ sample samples o, v = 1 ∨ v = -1 := by
  have hflat : flattenWires o.wires = [w] := by rw [hw]; rfl
  have hfw : firstWire o.wires = w := by rw [hw]; rfl
  have hopt : sample samples o
      = samples.map (fun row => 1 - 2 * (row.getD w 0 : ℚ)) := by
    unfold sample
    rw [if_pos hn, hfw]
  constructor
  · rw [hopt]
    unfold sampleGeneral
    rw [hflat, he]
    refine List.map_congr_left (fun row hrow => ?_)
    rcases getD_zero_or_one row w (hs row hrow) with hb | hb
    · show 1 - 2 * ((row.getD w 0 : Nat) : ℚ)
        = [(1 : ℚ), -1].getD ([w].foldl (fun acc v => 2 * acc + row.getD v 0) 0) 0
      rw [List.foldl_cons, List.foldl_nil, hb]
      norm_num
    · show 1 - 2 * ((row.getD w 0 : Nat) : ℚ)
        = [(1 : ℚ), -1].getD ([w].foldl (fun acc v => 2 * acc + row.getD v 0) 0) 0
      rw [List.foldl_cons, List.foldl_nil, hb]
      norm_num
  · rw [hopt]
    intro v hv
    simp only [List.mem_map] at hv
    obtain ⟨row, hrow, rfl⟩ := hv
    rcases getD_zero_or_one row w (hs row hrow) with hb | hb
    · left; rw [hb]; norm_num
    · right; rw [hb]; norm_num

/-- C3 witness: a concrete Pauli-Z sample observable on wire 0 and a 0/1
buffer of two single-bit rows. -/
theorem C3_sample_pauli_equiv_witness :
    sample [[0], [1]] pauliZExp = sampleGeneral [[0], [1]] pauliZExp
    ∧ ∀ v ∈ sample [[0], [1]] pauliZExp, v = 1 ∨ v = -1 :=
  C3_sample_pauli_equiv [[0], [1]] pauliZExp 0 rfl (by decide) rfl
    (by decide)

/-! ## C1 -/

/-- C1 (code bug): the spec's own scenario — a two-wire non-analytic device
executing `[Expectation(Z, wire 0), Sample(Z, wire 1)]` — is a mixed
return-type circuit, yet `execute` returns the *uniform numeric* array, not
the heterogeneous object container: `sample_return_types` is a generator,
`any` consumes it up to and including its first `True`, and the subsequent
`all` sees only the exhausted remainder (vacuously true).  Listing the
`Sample` observable first instead produces the object container, so the
packaging depends on observable order. -/
theorem C1_mixed_packaging_bug :
    (∃ rs, execute devTwoWire probFour rngZero
        (Circuit.mk [] [pauliZExp, pauliZSample]) = ExecResult.numericArr rs)
    ∧ (∃ rs, execute devTwoWire probFour rngZero
        (Circuit.mk [] [pauliZSample, pauliZExp]) = ExecResult.objectArr rs)
    ∧ ([pauliZExp, pauliZSample].map
          (fun o => decide (o.return_type = some ReturnType.Sample)))
        = [false, true]
    ∧ sampleMixDecision [false, true] = false
    ∧ sampleMixDecision [true, false] = true := by
  exact ⟨⟨_, rfl⟩, ⟨_, rfl⟩, rfl, rfl, rfl⟩

end PennyLane
